import Mathlib

/-!
Shallow embedding of the Imperial Battleground rules engine
(src/types.ts, src/game-state.ts, src/rules.ts, src/combat.ts, src/actions.ts)
and proofs about the frozen claims.

Conventions of the embedding:
* TypeScript `number` fields become `Int` (board coordinates, unit levels,
  action points, turn counters); loop indices and counts become `Nat`.
* `Map<string, Unit[]>` keyed by the string `"col,row"` becomes an
  association list keyed by `Position` (the key string is a bijective image
  of the position for the decimal-printed coordinates the program uses);
  `Map.set` keeps the original insertion slot when overwriting, new keys are
  appended, matching JS `Map` iteration order.
* `Math.random()` is modelled by an explicit stream `rng : Nat → Nat` of
  draws together with a running draw index; a draw bounded by `n` is read as
  `rng i % n`, which ranges over every value `< n` as `rng` ranges over all
  streams.
* Fallible lookups (`array[i]` possibly `undefined`) return `Option`.
-/

namespace ImperialBattleground

/-- Embeds `Player` from src/types.ts: `1 | 2`. -/
inductive Player where
  | one
  | two
  deriving DecidableEq, Repr

/-- Embeds `UnitType` from src/types.ts. -/
inductive UnitType where
  | infantry
  | cavalry
  | artillery
  deriving DecidableEq, Repr, Fintype

/-- Embeds `Unit` from src/types.ts. -/
structure Unit where
  id : String
  type : UnitType
  owner : Player
  level : Int
  hasMoved : Bool
  hasAttacked : Bool
  movedSquares : Int
  deriving DecidableEq, Repr

/-- Embeds `Position` from src/types.ts. -/
structure Position where
  col : Int
  row : Int
  deriving DecidableEq, Repr

/-- Embeds `Square` from src/types.ts. -/
structure Square where
  position : Position
  units : List Unit
  deriving DecidableEq, Repr

/-- Embeds `GamePhase` from src/types.ts. -/
inductive GamePhase where
  | scenarioSelect
  | playing
  | handoff
  | gameOver
  | retreatConfirm
  deriving DecidableEq, Repr

/-- Embeds `CombatLogEntry` from src/types.ts. -/
structure CombatLogEntry where
  turn : Int
  player : Player
  action : String
  details : String
  deriving DecidableEq, Repr

/-- Embeds `GameState` from src/types.ts.  The grid is a list of rows, each a list
of squares (the source fixes 4 rows of 3 squares; `mapGrid` and `getSquare`
are shape-generic exactly like the source). -/
structure GameState where
  grid : List (List Square)
  p1Reserve : List Unit
  p2Reserve : List Unit
  currentPlayer : Player
  actionPoints : Int
  maxActionPoints : Int
  selectedSquare : Option Position
  phase : GamePhase
  turnNumber : Int
  winner : Option Player
  combatLog : List CombatLogEntry
  deriving DecidableEq, Repr

/-! Constants from src/types.ts. -/

def GRID_COLS : Int := 3
def GRID_ROWS : Int := 4
def MAX_STACK_SLOTS : Int := 6
def MAX_UNITS_PER_SQUARE : Int := 3
def DEFAULT_AP : Int := 6
def BASE_THRESHOLD : Int := 10
def MIN_THRESHOLD : Int := 2
def MAX_THRESHOLD : Int := 36
def D40 : Nat := 40

/-- Embeds `UNIT_STACK_COST` from src/types.ts. -/
def UNIT_STACK_COST : UnitType → Int
  | .infantry => 1
  | .cavalry => 2
  | .artillery => 2

/-- Embeds `ARTILLERY_THRESHOLDS` from src/types.ts (defaulting to 0 is applied at
the lookup site `getArtilleryThreshold`). -/
def ARTILLERY_THRESHOLDS : Nat → Option Int
  | 1 => some 6
  | 2 => some 20
  | 3 => some 12
  | _ => none

/-- Embeds `BonusType` from src/types.ts. -/
inductive BonusType where
  | combinedArms2
  | combinedArms3
  | flanking2
  | flanking3
  | cavalryCharge
  deriving DecidableEq, Repr

/-- Embeds `BONUS_VALUES` from src/types.ts. -/
def BONUS_VALUES : BonusType → Int
  | .combinedArms2 => 6
  | .combinedArms3 => 10
  | .flanking2 => 10
  | .flanking3 => 20
  | .cavalryCharge => 6

def ARTILLERY_VULNERABILITY_THRESHOLD : Int := 4
def ARTILLERY_VULNERABILITY_DAMAGE : Nat := 1

/-! Embedding of src/game-state.ts. -/

/-- Text of a player number, as used in generated unit ids. -/
def Player.str : Player → String
  | .one => "1"
  | .two => "2"

/-- Text of a unit type, as used in generated unit ids. -/
def UnitType.str : UnitType → String
  | .infantry => "infantry"
  | .cavalry => "cavalry"
  | .artillery => "artillery"

/-- Embeds `createUnit` from src/game-state.ts.  The process-wide counter `nextId`
is made explicit: `n` is the value after the pre-increment `++nextId`. -/
def createUnit (type : UnitType) (owner : Player) (level : Int) (n : Nat) : Unit :=
  { id := owner.str ++ "-" ++ type.str ++ "-" ++ toString n
    type := type
    owner := owner
    level := level
    hasMoved := false
    hasAttacked := false
    movedSquares := 0 }

/-- Embeds `createGrid` from src/game-state.ts: 4 rows of 3 empty squares. -/
def createGrid : List (List Square) :=
  (List.range 4).map fun r =>
    (List.range 3).map fun c => { position := ⟨(c : Int), (r : Int)⟩, units := [] }

/-- Embeds `createArmy` from src/game-state.ts, for an explicit scenario config;
`start` is the value of the id counter before this army is created. -/
def createArmy (owner : Player) (config : List (UnitType × Int)) (start : Nat) : List Unit :=
  config.enum.map fun p => createUnit p.2.1 owner p.2.2 (start + p.1 + 1)

/-- Embeds `createInitialState(scenario)` from src/game-state.ts, for a fresh
process (id counter at 0): player 1 army first, then player 2. -/
def createInitialState (army : List (UnitType × Int)) : GameState :=
  { grid := createGrid
    p1Reserve := createArmy .one army 0
    p2Reserve := createArmy .two army army.length
    currentPlayer := .one
    actionPoints := DEFAULT_AP
    maxActionPoints := DEFAULT_AP
    selectedSquare := none
    phase := .playing
    turnNumber := 1
    winner := none
    combatLog := [] }

/-- The `Skirmish` scenario army from src/types.ts. -/
def skirmishArmy : List (UnitType × Int) :=
  [(.infantry, 2), (.cavalry, 2), (.artillery, 2)]

/-- Embeds `getSquare` from src/game-state.ts: `state.grid[pos.row]?.[pos.col]`,
with out-of-range (including negative) indices giving `undefined`. -/
def getSquare (state : GameState) (pos : Position) : Option Square :=
  if 0 ≤ pos.row then
    match state.grid.get? pos.row.toNat with
    | none => none
    | some row => if 0 ≤ pos.col then row.get? pos.col.toNat else none
  else none

/-- Embeds `getReserve` from src/game-state.ts. -/
def getReserve (state : GameState) (player : Player) : List Unit :=
  match player with
  | .one => state.p1Reserve
  | .two => state.p2Reserve

/-- Embeds `getHomeRow` from src/game-state.ts. -/
def getHomeRow : Player → Int
  | .one => 0
  | .two => 3

/-! Embedding of src/rules.ts. -/

/-- Embeds `isInBounds` from src/rules.ts. -/
def isInBounds (pos : Position) : Bool :=
  decide (0 ≤ pos.col) && decide (pos.col < GRID_COLS) &&
  decide (0 ≤ pos.row) && decide (pos.row < GRID_ROWS)

/-- Embeds `stackUsed` from src/rules.ts. -/
def stackUsed (units : List Unit) : Int :=
  units.foldl (fun sum u => sum + UNIT_STACK_COST u.type) 0

/-- Embeds `canFitInSquare` from src/rules.ts.  Note: it checks only the slot
budget; there is no ownership check. -/
def canFitInSquare (state : GameState) (pos : Position) (unit : Unit) : Bool :=
  match getSquare state pos with
  | none => false
  | some sq => decide (stackUsed sq.units + UNIT_STACK_COST unit.type ≤ MAX_STACK_SLOTS)

/-- Embeds `ORTHOGONAL` from src/rules.ts. -/
def ORTHOGONAL : List Position :=
  [⟨0, -1⟩, ⟨0, 1⟩, ⟨-1, 0⟩, ⟨1, 0⟩]

/-- Embeds `getValidMoves` from src/rules.ts.  The imperative accumulation of the
`moves` array (including the duplicate check of the cavalry L-shape branch,
which consults the moves gathered so far) is rendered as left folds. -/
def getValidMoves (state : GameState) (unit : Unit) (frm : Position) : List Position :=
  if unit.hasMoved then []
  else
    let homeRow := getHomeRow unit.owner
    match unit.type with
    | .artillery =>
      ORTHOGONAL.foldl (fun moves dir =>
        let dest : Position := ⟨frm.col + dir.col, frm.row + dir.row⟩
        if isInBounds dest && decide (dest.row = homeRow) && canFitInSquare state dest unit then
          moves ++ [dest]
        else moves) []
    | .infantry =>
      ORTHOGONAL.foldl (fun moves dir =>
        let dest : Position := ⟨frm.col + dir.col, frm.row + dir.row⟩
        if isInBounds dest && canFitInSquare state dest unit then moves ++ [dest] else moves) []
    | .cavalry =>
      ORTHOGONAL.foldl (fun moves dir =>
        let step1 : Position := ⟨frm.col + dir.col, frm.row + dir.row⟩
        let moves :=
          if isInBounds step1 && canFitInSquare state step1 unit then
            let moves := moves ++ [step1]
            let step2 : Position := ⟨step1.col + dir.col, step1.row + dir.row⟩
            if isInBounds step2 && canFitInSquare state step2 unit then moves ++ [step2]
            else moves
          else moves
        if isInBounds step1 then
          ORTHOGONAL.foldl (fun moves dir2 =>
            if dir2.col = -dir.col ∧ dir2.row = -dir.row then moves
            else if dir2.col = dir.col ∧ dir2.row = dir.row then moves
            else
              let step2 : Position := ⟨step1.col + dir2.col, step1.row + dir2.row⟩
              if isInBounds step2 && canFitInSquare state step2 unit &&
                  !(decide (step2.col = frm.col) && decide (step2.row = frm.row)) then
                if moves.any (fun m => decide (m.col = step2.col) && decide (m.row = step2.row)) then
                  moves
                else moves ++ [step2]
              else moves) moves
        else moves) []

/-- Embeds `canDeploy` from src/rules.ts. -/
def canDeploy (state : GameState) (player : Player) (target : Position) : Bool :=
  if target.row ≠ getHomeRow player then false
  else if !isInBounds target then false
  else
    match getSquare state target with
    | none => false
    | some sq => decide (stackUsed sq.units < MAX_STACK_SLOTS)

/-! Embedding of src/combat.ts. -/

/-- Embeds `calculateBonuses` from src/combat.ts.  The `Map<string, Unit[]>` is an
association list keyed by `Position`; `k.split(',')[0]` (the column as a
decimal string) becomes the column itself, and JS `Set` sizes become lengths
of deduplicated lists. -/
def calculateBonuses (attackersBySquare : List (Position × List Unit)) : List BonusType :=
  let allAttackers := (attackersBySquare.map Prod.snd).flatten
  let typesCount := ((allAttackers.map Unit.type).dedup).length
  let bonuses : List BonusType :=
    if typesCount ≥ 3 then [.combinedArms3]
    else if typesCount = 2 then [.combinedArms2]
    else []
  let colsCount := ((attackersBySquare.map (fun kv => kv.1.col)).dedup).length
  let bonuses :=
    if colsCount ≥ 3 then bonuses ++ [.flanking3]
    else if colsCount ≥ 2 then bonuses ++ [.flanking2]
    else bonuses
  let hasChargingCav := allAttackers.any fun u =>
    decide (u.type = .cavalry) && u.hasMoved && decide (u.movedSquares = 1)
  if hasChargingCav then bonuses ++ [.cavalryCharge] else bonuses

/-- Embeds `calculateThreshold` from src/combat.ts. -/
def calculateThreshold (bonuses : List BonusType) : Int :=
  let bonusTotal := bonuses.foldl (fun sum b => sum + BONUS_VALUES b) 0
  let raw := BASE_THRESHOLD + bonusTotal
  max MIN_THRESHOLD (min MAX_THRESHOLD raw)

/-- Embeds `getArtilleryThreshold` from src/combat.ts. -/
def getArtilleryThreshold (distance : Nat) : Int :=
  (ARTILLERY_THRESHOLDS distance).getD 0

/-- Embeds `rollD40Attack` from src/combat.ts: roll `totalDice` d40 and count the
rolls `≤ threshold`.  The i-th draw of the loop is `rng (start + i) % 40 + 1`,
covering every possible roll in 1..40. -/
def rollD40Attack (totalDice : Int) (threshold : Int) (rng : Nat → Nat) (start : Nat) : Nat :=
  ((List.range totalDice.toNat).filter fun i =>
    decide (((rng (start + i) % D40 + 1 : Nat) : Int) ≤ threshold)).length

/-- The per-defender record tracked by `distributeDamage` in src/combat.ts
(`{ id, remainingHp, totalDmg }`). -/
structure DmgRec where
  id : String
  remainingHp : Int
  totalDmg : Nat
  deriving DecidableEq, Repr

/-- One entry of the `unitDamage` output of `distributeDamage`. -/
structure DmgEntry where
  unitId : String
  damage : Nat
  destroyed : Bool
  deriving DecidableEq, Repr

/-- Indices into the tracked records whose `remainingHp` is still positive:
the `alive` view of the loop body of `distributeDamage`. -/
def aliveIdx (recs : List DmgRec) : List Nat :=
  ((recs.enum.filter fun p => decide (0 < p.2.remainingHp)).map Prod.fst)

/-- Apply one point of damage to the record at the given index
(`target.remainingHp -= 1; target.totalDmg += 1`). -/
def decrementAt : List DmgRec → Nat → List DmgRec
  | [], _ => []
  | r :: rs, 0 => { r with remainingHp := r.remainingHp - 1, totalDmg := r.totalDmg + 1 } :: rs
  | r :: rs, n + 1 => r :: decrementAt rs n

/-- One iteration of the hit loop of `distributeDamage`: if no defender is
alive the hit is discarded, otherwise a random alive defender (chosen by the
draw `r`) takes one point. -/
def hitOnce (recs : List DmgRec) (r : Nat) : List DmgRec :=
  match aliveIdx recs with
  | [] => recs
  | a :: as => decrementAt recs ((a :: as).get ⟨r % (a :: as).length, Nat.mod_lt r (Nat.succ_pos as.length)⟩)

/-- The hit loop of `distributeDamage`, applying `n` hits with consecutive
draws starting at `start`. -/
def runHits (rng : Nat → Nat) : Nat → List DmgRec → Nat → List DmgRec
  | _, recs, 0 => recs
  | start, recs, n + 1 => runHits rng (start + 1) (hitOnce recs (rng start)) n

/-- Embeds `distributeDamage` from src/combat.ts: randomly allocate `totalHits`
points among the defenders, reporting only defenders that took damage.
The `_attackers` argument is unused, as in the source. -/
def distributeDamage (totalHits : Nat) (_attackers defenders : List Unit)
    (rng : Nat → Nat) (start : Nat) : List DmgEntry :=
  let defenderState := defenders.map fun d => DmgRec.mk d.id d.level 0
  let final := runHits rng start defenderState totalHits
  (final.filter fun d => decide (0 < d.totalDmg)).map fun d =>
    DmgEntry.mk d.id d.totalDmg (decide (d.remainingHp ≤ 0))

/-! Modelling of `getValidAttacks`.

The definition of `getValidAttacks` is not present under src/ — src/rules.ts
only contains the movement and deploy rules, while src/actions.ts,
src/main.ts and the test suite import `getValidAttacks` from './rules'.  It
is therefore modelled from the spec below. -/

/-- Modelled from the spec: attack eligibility (spec section 4.2) —
`hasAttacked` units are never eligible, infantry and artillery are eligible
only if they have not moved, cavalry also after a move of at most one
square. -/
def canUnitAttack (u : Unit) : Bool :=
  if u.hasAttacked then false
  else
    match u.type with
    | .infantry => !u.hasMoved
    | .artillery => !u.hasMoved
    | .cavalry => !u.hasMoved || decide (u.movedSquares ≤ 1)

/-- Does the square at `pos` hold any unit of an owner other than
`attackerOwner`?  (Helper of the modelled `getValidAttacks`.) -/
def hasEnemyUnits (state : GameState) (pos : Position) (attackerOwner : Player) : Bool :=
  match getSquare state pos with
  | none => false
  | some sq => sq.units.any fun u => decide (u.owner ≠ attackerOwner)

/-- Modelled from the spec: `getValidAttacks(state, from, unitId?)`
(spec section 4.2), whose source file is missing from src/.  The source
square units, optionally narrowed to `unitId`, are filtered to the
attack-eligible ones; if any is infantry or cavalry the four orthogonal
in-bounds enemy-occupied neighbours are targets, and if any is artillery
every enemy-occupied square of the same column in another row is added,
without duplicates. -/
def getValidAttacks (state : GameState) (frm : Position) (unitId : Option String) : List Position :=
  match getSquare state frm with
  | none => []
  | some sq =>
    let pool : List Unit :=
      match unitId with
      | some uid => sq.units.filter fun u => decide (u.id = uid)
      | none => sq.units
    let attackers := pool.filter canUnitAttack
    match attackers with
    | [] => []
    | a0 :: _ =>
      let owner := a0.owner
      let hasAdjacentAttacker := attackers.any fun u =>
        decide (u.type = .infantry) || decide (u.type = .cavalry)
      let hasArtillery := attackers.any fun u => decide (u.type = .artillery)
      let targets : List Position :=
        if hasAdjacentAttacker then
          ORTHOGONAL.foldl (fun ts dir =>
            let target : Position := ⟨frm.col + dir.col, frm.row + dir.row⟩
            if isInBounds target && hasEnemyUnits state target owner then ts ++ [target]
            else ts) ([] : List Position)
        else []
      if hasArtillery then
        (List.range GRID_ROWS.toNat).foldl (fun ts r =>
          if (r : Int) = frm.row then ts
          else
            let target : Position := ⟨frm.col, (r : Int)⟩
            if hasEnemyUnits state target owner &&
                !(ts.any fun t => decide (t.col = target.col) && decide (t.row = target.row)) then
              ts ++ [target]
            else ts) targets
      else targets

/-! Embedding of src/actions.ts. -/

/-- Embeds `mapGrid` from src/actions.ts: rebuild the grid, applying `fn` to every
square together with its column and row index. -/
def mapGrid (state : GameState) (fn : Square → Nat → Nat → Square) : List (List Square) :=
  state.grid.enum.map fun p => p.2.enum.map fun q => fn q.2 q.1 p.1

/-- Embeds `addUnitToSquare` from src/actions.ts: append `unit` to the units of the
square at `pos` (a no-op on the grid when no square has those indices). -/
def addUnitToSquare (state : GameState) (pos : Position) (unit : Unit) : GameState :=
  { state with
    grid := mapGrid state fun sq c r =>
      if (r : Int) = pos.row ∧ (c : Int) = pos.col then { sq with units := sq.units ++ [unit] }
      else sq }

/-- Embeds `removeUnitFromSquare` from src/actions.ts. -/
def removeUnitFromSquare (state : GameState) (pos : Position) (unitId : String) : GameState :=
  { state with
    grid := mapGrid state fun sq c r =>
      if (r : Int) = pos.row ∧ (c : Int) = pos.col then
        { sq with units := sq.units.filter fun u => decide (u.id ≠ unitId) }
      else sq }

/-- Embeds `deployUnit` from src/actions.ts.  Note: besides the action-point gate it
checks only reserve membership and `target.row === homeRow` — neither the
column bounds nor the room of the target square. -/
def deployUnit (state : GameState) (unitId : String) (target : Position) : GameState :=
  if state.actionPoints ≤ 0 then state
  else
    let reserve := getReserve state state.currentPlayer
    match reserve.find? fun u => decide (u.id = unitId) with
    | none => state
    | some unit =>
      if target.row ≠ getHomeRow state.currentPlayer then state
      else
        let deployed : Unit := { unit with hasMoved := true, movedSquares := 0 }
        let newState := addUnitToSquare state target deployed
        let newReserve := reserve.filter fun u => decide (u.id ≠ unitId)
        let newState :=
          match state.currentPlayer with
          | .one => { newState with p1Reserve := newReserve }
          | .two => { newState with p2Reserve := newReserve }
        { newState with actionPoints := state.actionPoints - 1 }

/-- Embeds `moveUnit` from src/actions.ts.  Note: the destination is not validated
against `getValidMoves`, ownership, bounds or room. -/
def moveUnit (state : GameState) (unitId : String) (frm dest : Position) : GameState :=
  if state.actionPoints ≤ 0 then state
  else
    match getSquare state frm with
    | none => state
    | some sq =>
      match sq.units.find? fun u => decide (u.id = unitId) with
      | none => state
      | some unit =>
        let distance := (dest.col - frm.col).natAbs + (dest.row - frm.row).natAbs
        let movedUnit : Unit := { unit with hasMoved := true, movedSquares := (distance : Int) }
        let newState := removeUnitFromSquare state frm unitId
        let newState := addUnitToSquare newState dest movedUnit
        { newState with actionPoints := state.actionPoints - 1 }

/-- Embeds `moveUnits` from src/actions.ts: group move. -/
def moveUnits (state : GameState) (unitIds : List String) (frm dest : Position) : GameState :=
  if state.actionPoints ≤ 0 then state
  else if unitIds.isEmpty then state
  else
    match getSquare state frm with
    | none => state
    | some sq =>
      let units := unitIds.filterMap fun uid => sq.units.find? fun u => decide (u.id = uid)
      if units.length ≠ unitIds.length then state
      else
        let distance := (dest.col - frm.col).natAbs + (dest.row - frm.row).natAbs
        let newState := units.foldl (fun st unit =>
          let movedUnit : Unit := { unit with hasMoved := true, movedSquares := (distance : Int) }
          addUnitToSquare (removeUnitFromSquare st frm unit.id) dest movedUnit) state
        { newState with actionPoints := state.actionPoints - 1 }

/-- Embeds `resetPlayerUnits` from src/actions.ts: clear the per-turn flags of every
grid unit owned by `player`. -/
def resetPlayerUnits (state : GameState) (player : Player) : GameState :=
  { state with
    grid := mapGrid state fun sq _ _ =>
      { sq with units := sq.units.map fun u =>
          if u.owner = player then { u with hasMoved := false, hasAttacked := false, movedSquares := 0 }
          else u } }

/-- The other player. -/
def Player.next : Player → Player
  | .one => .two
  | .two => .one

/-- Embeds `endTurn` from src/actions.ts. -/
def endTurn (state : GameState) : GameState :=
  let nextPlayer := state.currentPlayer.next
  let nextTurn := if nextPlayer = Player.one then state.turnNumber + 1 else state.turnNumber
  let newState := resetPlayerUnits state nextPlayer
  { newState with
    currentPlayer := nextPlayer
    actionPoints := state.maxActionPoints
    selectedSquare := none
    phase := .handoff
    turnNumber := nextTurn }

/-- Embeds `confirmHandoff` from src/actions.ts. -/
def confirmHandoff (state : GameState) : GameState :=
  { state with phase := .playing }

/-- Embeds `AttackResult` from src/types.ts (with the `hasMelee` / `hasArtillery`
fields that src/actions.ts populates). -/
structure AttackResult where
  attackerSquares : List Position
  targetSquare : Position
  totalDice : Int
  threshold : Int
  hits : Nat
  bonuses : List BonusType
  unitDamage : List DmgEntry
  hasMelee : Bool
  hasArtillery : Bool
  deriving DecidableEq, Repr

/-- Embeds `emptyResult` from src/actions.ts. -/
def emptyResult (fromSquares : List Position) (target : Position) : AttackResult :=
  { attackerSquares := fromSquares
    targetSquare := target
    totalDice := 0
    threshold := 0
    hits := 0
    bonuses := []
    unitDamage := []
    hasMelee := false
    hasArtillery := false }

/-- Embeds `Map.set` on the association list that models `attackersBySquare`: an
existing key is overwritten in place, a new key is appended (JS `Map`
iteration order). -/
def mapSet (m : List (Position × List Unit)) (k : Position) (v : List Unit) :
    List (Position × List Unit) :=
  if m.any fun p => decide (p.1 = k) then
    m.map fun p => if p.1 = k then (k, v) else p
  else m ++ [(k, v)]

/-- Sum of the levels of a list of units (the `reduce` over `u.level`). -/
def sumLevels (units : List Unit) : Int :=
  units.foldl (fun sum u => sum + u.level) 0

/-- The attacker-gathering loop of `attackSquare` in src/actions.ts:
for each source square, its units are filtered to the current player's
not-yet-attacked ones, optionally narrowed to `unitIds`, then to the units
that can individually reach `target` per `getValidAttacks`; non-empty
results are recorded under the square key and appended to the flat attacker
list (so a duplicated entry of `fromSquares` duplicates its units in the
flat list while the map keeps a single entry). -/
def gatherAttackers (state : GameState) (fromSquares : List Position) (target : Position)
    (unitIds : Option (List String)) : List (Position × List Unit) × List Unit :=
  fromSquares.foldl (fun acc frm =>
    match getSquare state frm with
    | none => acc
    | some sq =>
      let eligible := sq.units.filter fun u =>
        decide (u.owner = state.currentPlayer) && !u.hasAttacked
      let eligible : List Unit :=
        match unitIds with
        | some ids => eligible.filter fun u => ids.contains u.id
        | none => eligible
      let eligible := eligible.filter fun u =>
        (getValidAttacks state frm (some u.id)).any fun t =>
          decide (t.col = target.col) && decide (t.row = target.row)
      if eligible.isEmpty then acc
      else (mapSet acc.1 frm eligible, acc.2 ++ eligible))
    ([], [])

/-- Embeds `attackSquare` from src/actions.ts.  `rng` is the stream of random draws
consumed, in order, by the melee roll, the per-square artillery rolls and
the damage distribution. -/
def attackSquare (state : GameState) (fromSquares : List Position) (target : Position)
    (unitIds : Option (List String)) (rng : Nat → Nat) : GameState × AttackResult :=
  if state.actionPoints ≤ 0 then (state, emptyResult fromSquares target)
  else
    let gathered := gatherAttackers state fromSquares target unitIds
    let attackersBySquare := gathered.1
    let allAttackers := gathered.2
    match getSquare state target with
    | none => (state, emptyResult fromSquares target)
    | some targetSq =>
      let defenders := targetSq.units.filter fun u => decide (u.owner ≠ state.currentPlayer)
      if defenders.isEmpty then (state, emptyResult fromSquares target)
      else
        let bonuses := calculateBonuses attackersBySquare
        let threshold0 := calculateThreshold bonuses
        let artilleryDefenders := defenders.filter fun u => decide (u.type = .artillery)
        let threshold :=
          if 0 < artilleryDefenders.length then
            min (threshold0 + ARTILLERY_VULNERABILITY_THRESHOLD) 36
          else threshold0
        let meleeAttackers := allAttackers.filter fun u => decide (u.type ≠ .artillery)
        let meleeDice := sumLevels meleeAttackers
        let meleeHits := if 0 < meleeDice then rollD40Attack meleeDice threshold rng 0 else 0
        let artPair := attackersBySquare.foldl (fun (acc : Nat × Nat) kv =>
            let artUnits := kv.2.filter fun u => decide (u.type = .artillery)
            if artUnits.isEmpty then acc
            else
              let distance := (target.row - kv.1.row).natAbs
              let artThreshold := getArtilleryThreshold distance
              let artDice := sumLevels artUnits
              (acc.1 + rollD40Attack artDice artThreshold rng acc.2, acc.2 + artDice.toNat))
          (0, meleeDice.toNat)
        let artilleryHits := artPair.1
        let totalDice := sumLevels allAttackers
        let artVulnBonus := artilleryDefenders.length * ARTILLERY_VULNERABILITY_DAMAGE
        let flankingColsCount := ((attackersBySquare.map fun kv => kv.1.col).dedup).length
        let flankingArtilleryBonus :=
          if 2 ≤ flankingColsCount ∧ 0 < artilleryDefenders.length then flankingColsCount - 1
          else 0
        let hits := meleeHits + artilleryHits + artVulnBonus + flankingArtilleryBonus
        let unitDamage := distributeDamage hits allAttackers defenders rng artPair.2
        let attackerIds := allAttackers.map Unit.id
        let newState : GameState :=
          { state with
            grid := mapGrid state fun sq c r =>
              if fromSquares.any fun f => decide (f.row = (r : Int)) && decide (f.col = (c : Int)) then
                { sq with units := sq.units.map fun u =>
                    if attackerIds.contains u.id then { u with hasAttacked := true } else u }
              else sq }
        let newState : GameState :=
          { newState with
            grid := mapGrid newState fun sq c r =>
              if (r : Int) ≠ target.row ∨ (c : Int) ≠ target.col then sq
              else
                let damaged := sq.units.map fun u =>
                  match unitDamage.find? fun d => decide (d.unitId = u.id) with
                  | none => u
                  | some entry => { u with level := u.level - entry.damage }
                { sq with units := damaged.filter fun u => decide (0 < u.level) } }
        ({ newState with actionPoints := state.actionPoints - 1 },
         { attackerSquares := fromSquares
           targetSquare := target
           totalDice := totalDice
           threshold := threshold
           hits := hits
           bonuses := bonuses
           unitDamage := unitDamage
           hasMelee := !meleeAttackers.isEmpty
           hasArtillery := allAttackers.any fun u => decide (u.type = .artillery) })

/-- Embeds `checkWinCondition` from src/actions.ts. -/
def checkWinCondition (state : GameState) : Option Player :=
  let p1OnGrid := state.grid.any fun row => row.any fun sq => sq.units.any fun u => decide (u.owner = Player.one)
  let p1InReserve := 0 < state.p1Reserve.length
  let p2OnGrid := state.grid.any fun row => row.any fun sq => sq.units.any fun u => decide (u.owner = Player.two)
  let p2InReserve := 0 < state.p2Reserve.length
  if !p2OnGrid && !(decide p2InReserve) then some .one
  else if !p1OnGrid && !(decide p1InReserve) then some .two
  else none

/-! Reachability.

One step of the orchestrator: any application of one of the exported action
functions of src/actions.ts, with arbitrary arguments. -/

/-- One action application. -/
inductive Step : GameState → GameState → Prop where
  | deploy (s : GameState) (uid : String) (target : Position) :
      Step s (deployUnit s uid target)
  | move (s : GameState) (uid : String) (frm dest : Position) :
      Step s (moveUnit s uid frm dest)
  | moveGroup (s : GameState) (uids : List String) (frm dest : Position) :
      Step s (moveUnits s uids frm dest)
  | attack (s : GameState) (fs : List Position) (t : Position)
      (uids : Option (List String)) (rng : Nat → Nat) :
      Step s (attackSquare s fs t uids rng).1
  | turnEnd (s : GameState) : Step s (endTurn s)
  | handoff (s : GameState) : Step s (confirmHandoff s)

/-- States reachable from the initial Skirmish state by action applications. -/
inductive Reachable : GameState → Prop where
  | init : Reachable (createInitialState skirmishArmy)
  | step {s s' : GameState} : Reachable s → Step s s' → Reachable s'

/-! Concrete states used as counterexamples and witnesses. -/

/-- An empty playing state: empty 4 x 3 grid, empty reserves, player 1 to
act with 6 action points. -/
def baseState : GameState :=
  { grid := createGrid
    p1Reserve := []
    p2Reserve := []
    currentPlayer := .one
    actionPoints := 6
    maxActionPoints := 6
    selectedSquare := none
    phase := .playing
    turnNumber := 1
    winner := none
    combatLog := [] }

/-- A fresh player-1 infantry of level 2. -/
def inf1 : Unit := ⟨"p1-inf", .infantry, .one, 2, false, false, 0⟩

/-- A fresh player-2 infantry of level 2. -/
def enemyInf : Unit := ⟨"p2-inf", .infantry, .two, 2, false, false, 0⟩

/-- A fresh player-2 artillery of level 2. -/
def enemyArt : Unit := ⟨"p2-art", .artillery, .two, 2, false, false, 0⟩

/-- State with the player-1 infantry at (1,1) and the enemy infantry at
(1,2): the enemy square is orthogonally adjacent and has room. -/
def c3State : GameState :=
  addUnitToSquare (addUnitToSquare baseState ⟨1, 1⟩ inf1) ⟨1, 2⟩ enemyInf

/-- State with a lone enemy artillery on (0,3) and 6 action points. -/
def c1State : GameState := addUnitToSquare baseState ⟨0, 3⟩ enemyArt

/-- A player-1 artillery used to fill a square to its 6-slot limit. -/
def fillArt (i : Nat) : Unit := ⟨"a" ++ toString i, .artillery, .one, 2, false, false, 0⟩

/-- State whose home-row square (0,0) is full (3 artillery, 6 of 6 slots)
while the player-1 reserve still holds an infantry. -/
def c4State : GameState :=
  { addUnitToSquare (addUnitToSquare (addUnitToSquare baseState ⟨0, 0⟩ (fillArt 1)) ⟨0, 0⟩ (fillArt 2)) ⟨0, 0⟩ (fillArt 3)
    with p1Reserve := [inf1] }

/-- State with the player-1 infantry at (2,2), used to move off the grid. -/
def c5State : GameState := addUnitToSquare baseState ⟨2, 2⟩ inf1

/-- Four action applications from the initial Skirmish state: player 1
deploys an infantry at (0,0); the turn ends and the handoff is confirmed;
player 2 deploys an infantry at (0,3); then `moveUnit` is applied to the
player-1 infantry with destination (0,3) — the function validates nothing
about the destination and stacks it onto the enemy square. -/
def c2s1 : GameState := deployUnit (createInitialState skirmishArmy) "1-infantry-1" ⟨0, 0⟩

def c2s2 : GameState := confirmHandoff (endTurn c2s1)

def c2s3 : GameState := deployUnit c2s2 "2-infantry-4" ⟨0, 3⟩

def c2s4 : GameState := moveUnit c2s3 "1-infantry-1" ⟨0, 0⟩ ⟨0, 3⟩

/-- The square invariant claimed by the spec: units of a square share one
owner, and a square holds at most 3 units. -/
def squareInvariant (sq : Square) : Prop :=
  (∀ u ∈ sq.units, ∀ v ∈ sq.units, u.owner = v.owner) ∧ sq.units.length ≤ 3

/-- Per-defender damage map used to state C7: the entries of
`distributeDamage` matched against the defender list. -/
def sumDamage (entries : List DmgEntry) : Nat :=
  (entries.map DmgEntry.damage).sum

/-- The concrete attacker map used as the C8 witness: an infantry from
(0,0) and a one-square-charging cavalry from (1,0). -/
def c8Map : List (Position × List Unit) :=
  [(⟨0, 0⟩, [inf1]), (⟨1, 0⟩, [⟨"p1-cav", .cavalry, .one, 2, true, false, 1⟩])]

/-- The mixed-owner square produced at (0,3) by the action sequence of
`c2s4`. -/
def c2BadSquare : Square :=
  { position := ⟨0, 3⟩
    units := [⟨"2-infantry-4", .infantry, .two, 2, true, false, 0⟩,
              ⟨"1-infantry-1", .infantry, .one, 2, true, false, 3⟩] }

instance : DecidablePred squareInvariant := fun sq => by
  unfold squareInvariant
  infer_instance

/-- The grid shape of every actually constructed state: 4 rows of 3
squares. -/
def gridShape (s : GameState) : Prop :=
  s.grid.length = 4 ∧ ∀ row ∈ s.grid, row.length = 3

instance : DecidablePred gridShape := fun s => by
  unfold gridShape
  infer_instance

/-- State with only an infantry in the player-1 reserve, used to deploy to
an off-grid column of the home row. -/
def c5DeployState : GameState := { baseState with p1Reserve := [inf1] }

/-- The empty playing state with 0 action points. -/
def apZeroState : GameState := { baseState with actionPoints := 0 }

/-- Total tracked damage of a record list. -/
def sumDmg (recs : List DmgRec) : Nat :=
  (recs.map DmgRec.totalDmg).sum

/-- Total remaining (non-negative) hit points of a record list. -/
def sumHpNat (recs : List DmgRec) : Nat :=
  (recs.map fun r => r.remainingHp.toNat).sum

/-- Invariant tying a tracked damage record to the defender it was created
from: same id, hit points plus damage equal the original level, and hit
points never negative. -/
def DmgInv (r : DmgRec) (d : Unit) : Prop :=
  r.id = d.id ∧ r.remainingHp + r.totalDmg = d.level ∧ 0 ≤ r.remainingHp

/-! Theorems. -/

/-- C1: the claim fails on the code.  With `actionPoints = 6 > 0` and an
attack whose attacker filter is empty (`fromSquares = []`) against a square
holding an enemy artillery, `attackSquare` is not a no-op: for every random
stream it spends one action point (so the returned state differs from the
input), and the artillery-vulnerability bonus even damages the defender
(level 2 becomes 1), although not a single unit attacked. -/
theorem attackSquare_no_attackers_not_noop (rng : Nat → Nat) :
    (attackSquare c1State [] ⟨0, 3⟩ none rng).1.actionPoints = 5 ∧
    (attackSquare c1State [] ⟨0, 3⟩ none rng).1 ≠ c1State ∧
    ((getSquare (attackSquare c1State [] ⟨0, 3⟩ none (fun _ => 0)).1 ⟨0, 3⟩).map fun sq =>
      sq.units.map Unit.level) = some [1] := by
  have hAP : (attackSquare c1State [] ⟨0, 3⟩ none rng).1.actionPoints = 5 := rfl
  refine ⟨hAP, fun h => ?_, by decide⟩
  rw [h] at hAP
  exact absurd hAP (by decide)

/-- C2: the claim fails on the code.  The state `c2s4` is reachable from the
initial Skirmish state by deploy, end-turn, handoff-confirm, deploy and
move, yet its square (0,3) holds units of both owners — `moveUnit` does not
validate its destination, so the square invariant is not preserved.  (The
repository's own tests assert the blocking behaviour that would maintain
it.) -/
theorem reachable_state_violates_square_invariant :
    Reachable c2s4 ∧ getSquare c2s4 ⟨0, 3⟩ = some c2BadSquare ∧ ¬ squareInvariant c2BadSquare := by
  refine ⟨?_, by decide, by decide⟩
  exact Reachable.step
    (Reachable.step
      (Reachable.step
        (Reachable.step
          (Reachable.step Reachable.init (Step.deploy _ "1-infantry-1" ⟨0, 0⟩))
          (Step.turnEnd _))
        (Step.handoff _))
      (Step.deploy _ "2-infantry-4" ⟨0, 3⟩))
    (Step.move _ "1-infantry-1" ⟨0, 0⟩ ⟨0, 3⟩)

/-- C3: the claim fails on the code.  `getValidMoves` performs no ownership
check (`canFitInSquare` checks only the slot budget), so the un-moved
player-1 infantry at (1,1) is offered the adjacent square (1,2) that is
occupied solely by a player-2 unit — contradicting the spec and the
repository's own test `infantry cannot move onto square with enemy
units`. -/
theorem getValidMoves_returns_enemy_square :
    (⟨1, 2⟩ : Position) ∈ getValidMoves c3State inf1 ⟨1, 1⟩ ∧
    ((getSquare c3State ⟨1, 2⟩).map fun sq => sq.units.map Unit.owner) = some [.two] ∧
    inf1.owner = .one ∧ inf1.hasMoved = false := by decide

/-- C4 counterexample: deploying to a full home-row square is not a no-op.
Square (0,0) of `c4State` is full (3 artillery, 6 of 6 slots, so
`canDeploy` is false), yet `deployUnit` places a fourth unit there and
spends one action point, so the returned state differs from the input. -/
theorem deployUnit_full_square_not_noop :
    canDeploy c4State c4State.currentPlayer ⟨0, 0⟩ = false ∧
    (⟨0, 0⟩ : Position).row = getHomeRow c4State.currentPlayer ∧
    deployUnit c4State "p1-inf" ⟨0, 0⟩ ≠ c4State ∧
    (deployUnit c4State "p1-inf" ⟨0, 0⟩).actionPoints = c4State.actionPoints - 1 ∧
    ((getSquare (deployUnit c4State "p1-inf" ⟨0, 0⟩) ⟨0, 0⟩).map fun sq => sq.units.length) =
      some 4 := by decide

/-- C4 amended: `deployUnit` returns the input state unchanged exactly when
`actionPoints ≤ 0`, or `unitId` is not found in the current player's
reserve, or `target.row` is not that player's home row; it checks neither
the room nor the column bounds of the target, and whenever the three
checked conditions pass it deploys and spends one action point (even onto a
full square). -/
theorem deployUnit_noop_conditions (s : GameState) (uid : String) (t : Position) :
    ((s.actionPoints ≤ 0 ∨
        (getReserve s s.currentPlayer).find? (fun u => decide (u.id = uid)) = none ∨
        t.row ≠ getHomeRow s.currentPlayer) →
      deployUnit s uid t = s) ∧
    (0 < s.actionPoints →
      (getReserve s s.currentPlayer).find? (fun u => decide (u.id = uid)) ≠ none →
      t.row = getHomeRow s.currentPlayer →
      (deployUnit s uid t).actionPoints = s.actionPoints - 1) := by
  constructor
  · rintro (hap | hfind | hrow)
    · simp [deployUnit, hap]
    · by_cases hap : s.actionPoints ≤ 0 <;> simp [deployUnit, hap, hfind]
    · by_cases hap : s.actionPoints ≤ 0
      · simp [deployUnit, hap]
      · cases hfind : (getReserve s s.currentPlayer).find? (fun u => decide (u.id = uid)) with
        | none => simp [deployUnit, hap, hfind]
        | some u => simp [deployUnit, hap, hfind, hrow]
  · intro hap hfind hrow
    cases hfind2 : (getReserve s s.currentPlayer).find? (fun u => decide (u.id = uid)) with
    | none => exact absurd hfind2 hfind
    | some u =>
      have hap2 : ¬ s.actionPoints ≤ 0 := by omega
      simp [deployUnit, hap2, hfind2, hrow]

/-- Witness for the amended C4 theorem at a concrete input: in `c4State`
(6 action points, "p1-inf" in reserve) a deploy to row 1 — not the home
row — is a no-op, and the deploy onto the full home-row square (0,0)
spends one action point. -/
theorem deployUnit_noop_conditions_witness :
    deployUnit c4State "p1-inf" ⟨0, 1⟩ = c4State ∧
    (deployUnit c4State "p1-inf" ⟨0, 0⟩).actionPoints = c4State.actionPoints - 1 :=
  ⟨(deployUnit_noop_conditions c4State "p1-inf" ⟨0, 1⟩).1 (Or.inr (Or.inr (by decide))),
   (deployUnit_noop_conditions c4State "p1-inf" ⟨0, 0⟩).2 (by decide) (by decide) (by decide)⟩

/-- Mapping a function over an enumerated list returns the list itself when
the function is the identity on every enumerated entry. -/
theorem enumFrom_map_eq_self {α : Type} (l : List α) (n : Nat) (f : Nat × α → α)
    (h : ∀ p ∈ l.enumFrom n, f p = p.2) : (l.enumFrom n).map f = l := by
  induction l generalizing n with
  | nil => rfl
  | cons a t ih =>
    simp only [List.enumFrom, List.map]
    rw [h (n, a) (by simp [List.enumFrom]), ih (n + 1) (fun p hp => h p (by simp [List.enumFrom, hp]))]

/-- Embeds `mapGrid` returns the grid unchanged when `fn` is the identity at every
index of the grid. -/
theorem mapGrid_eq_self (s : GameState) (fn : Square → Nat → Nat → Square)
    (h : ∀ p ∈ s.grid.enum, ∀ q ∈ p.2.enum, fn q.2 q.1 p.1 = q.2) :
    mapGrid s fn = s.grid := by
  unfold mapGrid
  refine enumFrom_map_eq_self s.grid 0 _ fun p hp => ?_
  exact enumFrom_map_eq_self p.2 0 _ fun q hq => h p hp q hq

/-- Members of an enumeration: the index is below the length and the entry
is a member of the list. -/
theorem mem_enumFrom_facts {α : Type} {l : List α} {n : Nat} {p : Nat × α}
    (h : p ∈ l.enumFrom n) : p.1 < n + l.length ∧ p.2 ∈ l := by
  induction l generalizing n with
  | nil => cases h
  | cons a t ih =>
    rw [List.enumFrom] at h
    rcases List.mem_cons.1 h with h | h
    · subst h
      exact ⟨by simp only [List.length_cons]; omega, List.mem_cons_self _ _⟩
    · obtain ⟨h1, h2⟩ := ih h
      exact ⟨by simp only [List.length_cons]; omega, List.mem_cons_of_mem _ h2⟩

/-- Embeds `mapGrid` preserves the grid shape. -/
theorem gridShape_mapGrid (s : GameState) (fn : Square → Nat → Nat → Square)
    (h : gridShape s) : gridShape { s with grid := mapGrid s fn } := by
  obtain ⟨hlen, hrows⟩ := h
  constructor
  · show (mapGrid s fn).length = 4
    unfold mapGrid
    simpa [List.enum_length] using hlen
  · intro row hrow
    have hrow2 : row ∈ mapGrid s fn := hrow
    unfold mapGrid at hrow2
    obtain ⟨p, hp, hrow2⟩ := List.mem_map.1 hrow2
    subst hrow2
    have hmem := (mem_enumFrom_facts hp).2
    simp [List.enum_length, hrows _ hmem]

/-- Embeds `removeUnitFromSquare` preserves the grid shape. -/
theorem gridShape_removeUnitFromSquare (s : GameState) (frm : Position) (uid : String)
    (h : gridShape s) : gridShape (removeUnitFromSquare s frm uid) := by
  unfold removeUnitFromSquare
  exact gridShape_mapGrid s _ h

/-- Adding a unit at a position whose row or column indexes no square of a
4 x 3 grid leaves the state unchanged — the unit is silently dropped. -/
theorem addUnitToSquare_oob (s : GameState) (pos : Position) (u : Unit)
    (hshape : gridShape s) (hoob : isInBounds pos = false) :
    addUnitToSquare s pos u = s := by
  unfold addUnitToSquare
  rw [mapGrid_eq_self]
  intro p hp q hq
  rw [if_neg]
  rintro ⟨hr, hc⟩
  have hps := mem_enumFrom_facts hp
  have hqs := mem_enumFrom_facts hq
  have hrow3 : p.2.length = 3 := hshape.2 _ hps.2
  have hp4 : p.1 < 4 := by
    have h1 := hps.1
    have hlen := hshape.1
    omega
  have hq3 : q.1 < 3 := by
    have h1 := hqs.1
    omega
  have hib : isInBounds pos = true := by
    simp only [isInBounds, GRID_COLS, GRID_ROWS, Bool.and_eq_true, decide_eq_true_eq]
    omega
  rw [hib] at hoob
  cases hoob

/-- C5: out-of-grid destinations silently delete units.  If the state has
the standard 4 x 3 grid and a positive action-point budget, then (a) a
`moveUnit` of a present unit to a destination outside the grid produces
exactly the state with the unit removed from its source square and one
action point spent — the unit is placed nowhere; and (b) a `deployUnit` to
a position on the home row whose column is outside 0..2 leaves the grid
unchanged while still removing the unit from the reserve and spending one
action point. -/
theorem out_of_bounds_moves_delete_units :
    (∀ (s : GameState) (uid : String) (frm dest : Position),
      gridShape s → 0 < s.actionPoints → isInBounds dest = false →
      (∃ sq u, getSquare s frm = some sq ∧
        sq.units.find? (fun v => decide (v.id = uid)) = some u) →
      moveUnit s uid frm dest =
        { removeUnitFromSquare s frm uid with actionPoints := s.actionPoints - 1 }) ∧
    (∀ (s : GameState) (uid : String) (target : Position),
      gridShape s → 0 < s.actionPoints →
      (getReserve s s.currentPlayer).find? (fun u => decide (u.id = uid)) ≠ none →
      target.row = getHomeRow s.currentPlayer → (target.col < 0 ∨ 3 ≤ target.col) →
      (deployUnit s uid target).grid = s.grid ∧
      (deployUnit s uid target).actionPoints = s.actionPoints - 1 ∧
      getReserve (deployUnit s uid target) s.currentPlayer =
        (getReserve s s.currentPlayer).filter (fun u => decide (u.id ≠ uid))) := by
  constructor
  · intro s uid frm dest hshape hap hoob hfound
    obtain ⟨sq, u, hsq, hfind⟩ := hfound
    have hap2 : ¬ s.actionPoints ≤ 0 := by omega
    unfold moveUnit
    rw [if_neg hap2]
    simp only [hsq, hfind]
    rw [addUnitToSquare_oob _ _ _ (gridShape_removeUnitFromSquare s frm uid hshape) hoob]
  · intro s uid target hshape hap hfind hrow hcol
    have hap2 : ¬ s.actionPoints ≤ 0 := by omega
    cases hfind2 : (getReserve s s.currentPlayer).find? (fun u => decide (u.id = uid)) with
    | none => exact absurd hfind2 hfind
    | some u =>
      have hadd : ∀ (du : Unit), addUnitToSquare s target du = s := by
        intro du
        unfold addUnitToSquare
        rw [mapGrid_eq_self]
        intro p hp q hq
        rw [if_neg]
        rintro ⟨hr, hc⟩
        have hqs := mem_enumFrom_facts hq
        have hps := mem_enumFrom_facts hp
        have hrow3 : p.2.length = 3 := hshape.2 _ hps.2
        have hq3 : q.1 < 3 := by
          have h1 := hqs.1
          omega
        omega
      unfold deployUnit
      rw [if_neg hap2]
      simp only [hfind2]
      rw [if_neg (by simp [hrow])]
      refine ⟨?_, rfl, ?_⟩
      · cases s.currentPlayer <;> simp [hadd]
      · cases hcp : s.currentPlayer <;> simp [hadd, getReserve, hcp]
  
/-- Witness for C5 at concrete inputs: moving the infantry at (2,2) of
`c5State` to the off-grid position (3,2) yields exactly the removal state
with 5 action points, and deploying to the off-grid home-row position
(3,0) leaves the grid unchanged, spends a point and empties the reserve. -/
theorem out_of_bounds_moves_delete_units_witness :
    moveUnit c5State "p1-inf" ⟨2, 2⟩ ⟨3, 2⟩ =
      { removeUnitFromSquare c5State ⟨2, 2⟩ "p1-inf" with actionPoints := 5 } ∧
    (deployUnit c5DeployState "p1-inf" ⟨3, 0⟩).grid = c5DeployState.grid ∧
    (deployUnit c5DeployState "p1-inf" ⟨3, 0⟩).actionPoints = 5 ∧
    getReserve (deployUnit c5DeployState "p1-inf" ⟨3, 0⟩) Player.one = [] := by
  constructor
  · exact out_of_bounds_moves_delete_units.1 c5State "p1-inf" ⟨2, 2⟩ ⟨3, 2⟩ (by decide)
      (by decide) (by decide)
      ⟨⟨⟨2, 2⟩, [inf1]⟩, inf1, by decide, by decide⟩
  · have h := out_of_bounds_moves_delete_units.2 c5DeployState "p1-inf" ⟨3, 0⟩ (by decide)
      (by decide) (by decide) (by decide) (by decide)
    exact ⟨h.1, h.2.1, by rw [show getReserve (deployUnit c5DeployState "p1-inf" ⟨3, 0⟩) Player.one = _ from h.2.2]; decide⟩

/-- Embeds `deployUnit` either returns the input state or spends exactly one
action point. -/
theorem deployUnit_noop_or_spend (s : GameState) (uid : String) (t : Position) :
    deployUnit s uid t = s ∨ (deployUnit s uid t).actionPoints = s.actionPoints - 1 := by
  unfold deployUnit
  by_cases hap : s.actionPoints ≤ 0
  · rw [if_pos hap]
    exact Or.inl (by trivial)
  rw [if_neg hap]
  cases hfind : (getReserve s s.currentPlayer).find? (fun u => decide (u.id = uid)) with
  | none =>
    simp only [hfind]
    exact Or.inl (by trivial)
  | some u =>
    simp only [hfind]
    by_cases hrow : t.row ≠ getHomeRow s.currentPlayer
    · rw [if_pos hrow]
      exact Or.inl (by trivial)
    · rw [if_neg hrow]
      exact Or.inr (by trivial)

/-- Embeds `moveUnit` either returns the input state or spends exactly one action
point. -/
theorem moveUnit_noop_or_spend (s : GameState) (uid : String) (frm dest : Position) :
    moveUnit s uid frm dest = s ∨ (moveUnit s uid frm dest).actionPoints = s.actionPoints - 1 := by
  unfold moveUnit
  by_cases hap : s.actionPoints ≤ 0
  · rw [if_pos hap]
    exact Or.inl (by trivial)
  rw [if_neg hap]
  cases hsq : getSquare s frm with
  | none =>
    simp only [hsq]
    exact Or.inl (by trivial)
  | some sq =>
    simp only [hsq]
    cases hfind : sq.units.find? (fun u => decide (u.id = uid)) with
    | none =>
      simp only [hfind]
      exact Or.inl (by trivial)
    | some u =>
      simp only [hfind]
      exact Or.inr (by trivial)

/-- Embeds `moveUnits` either returns the input state or spends exactly one action
point. -/
theorem moveUnits_noop_or_spend (s : GameState) (uids : List String) (frm dest : Position) :
    moveUnits s uids frm dest = s ∨ (moveUnits s uids frm dest).actionPoints = s.actionPoints - 1 := by
  unfold moveUnits
  by_cases hap : s.actionPoints ≤ 0
  · rw [if_pos hap]
    exact Or.inl (by trivial)
  rw [if_neg hap]
  by_cases hempty : uids.isEmpty = true
  · rw [if_pos hempty]
    exact Or.inl (by trivial)
  rw [if_neg hempty]
  cases hsq : getSquare s frm with
  | none =>
    simp only [hsq]
    exact Or.inl (by trivial)
  | some sq =>
    simp only [hsq]
    by_cases hlen : (uids.filterMap fun uid => sq.units.find? fun u => decide (u.id = uid)).length ≠ uids.length
    · rw [if_pos hlen]
      exact Or.inl (by trivial)
    · rw [if_neg hlen]
      exact Or.inr (by trivial)

/-- Embeds `attackSquare` either returns the input state or spends exactly one
action point. -/
theorem attackSquare_noop_or_spend (s : GameState) (fs : List Position) (t : Position)
    (uids : Option (List String)) (rng : Nat → Nat) :
    (attackSquare s fs t uids rng).1 = s ∨
      (attackSquare s fs t uids rng).1.actionPoints = s.actionPoints - 1 := by
  unfold attackSquare
  by_cases hap : s.actionPoints ≤ 0
  · rw [if_pos hap]
    exact Or.inl (by trivial)
  rw [if_neg hap]
  cases hts : getSquare s t with
  | none =>
    simp only [hts]
    exact Or.inl (by trivial)
  | some tsq =>
    simp only [hts]
    by_cases hdef : (List.filter (fun u => decide (u.owner ≠ s.currentPlayer)) tsq.units).isEmpty = true
    · rw [if_pos hdef]
      exact Or.inl (by trivial)
    · rw [if_neg hdef]
      exact Or.inr (by trivial)

/-- C6: action-point discipline.  Every `deployUnit`, `moveUnit`,
`moveUnits` or `attackSquare` application either returns the input state
unchanged (every no-op path returns the very input) or decrements
`actionPoints` by exactly 1; and with 0 action points every one of them
returns the input state, so neither the grid nor a reserve can change. -/
theorem actions_ap_discipline (s : GameState) (uid : String) (uids : List String)
    (frm dest target : Position) (fs : List Position) (ouids : Option (List String))
    (rng : Nat → Nat) :
    (deployUnit s uid target = s ∨ (deployUnit s uid target).actionPoints = s.actionPoints - 1) ∧
    (moveUnit s uid frm dest = s ∨ (moveUnit s uid frm dest).actionPoints = s.actionPoints - 1) ∧
    (moveUnits s uids frm dest = s ∨
      (moveUnits s uids frm dest).actionPoints = s.actionPoints - 1) ∧
    ((attackSquare s fs target ouids rng).1 = s ∨
      (attackSquare s fs target ouids rng).1.actionPoints = s.actionPoints - 1) ∧
    (s.actionPoints = 0 →
      deployUnit s uid target = s ∧ moveUnit s uid frm dest = s ∧
      moveUnits s uids frm dest = s ∧ (attackSquare s fs target ouids rng).1 = s) := by
  refine ⟨deployUnit_noop_or_spend s uid target, moveUnit_noop_or_spend s uid frm dest,
    moveUnits_noop_or_spend s uids frm dest, attackSquare_noop_or_spend s fs target ouids rng,
    fun h => ?_⟩
  have hle : s.actionPoints ≤ 0 := le_of_eq h
  refine ⟨?_, ?_, ?_, ?_⟩
  · unfold deployUnit
    rw [if_pos hle]
  · unfold moveUnit
    rw [if_pos hle]
  · unfold moveUnits
    rw [if_pos hle]
  · show (attackSquare s fs target ouids rng).1 = s
    unfold attackSquare
    rw [if_pos hle]

/-- Witness for C6 at a concrete input: in the 0-action-point state every
action returns the state unchanged. -/
theorem actions_ap_discipline_witness :
    deployUnit apZeroState "p1-inf" ⟨0, 0⟩ = apZeroState ∧
    moveUnit apZeroState "p1-inf" ⟨0, 0⟩ ⟨0, 1⟩ = apZeroState ∧
    moveUnits apZeroState ["p1-inf"] ⟨0, 0⟩ ⟨0, 1⟩ = apZeroState ∧
    (attackSquare apZeroState [⟨0, 0⟩] ⟨0, 1⟩ none (fun _ => 0)).1 = apZeroState :=
  (actions_ap_discipline apZeroState "p1-inf" ["p1-inf"] ⟨0, 0⟩ ⟨0, 1⟩ ⟨0, 1⟩ [⟨0, 0⟩] none
    (fun _ => 0)).2.2.2.2 (by decide)

/-- Mapping over an enumerated list with a function that ignores the index
is mapping over the list. -/
theorem enumFrom_map_snd {α β : Type} (l : List α) (n : Nat) (g : α → β) :
    (l.enumFrom n).map (fun p => g p.2) = l.map g := by
  induction l generalizing n with
  | nil => rfl
  | cons a t ih => simp [List.enumFrom, ih]

/-- Embeds `mapGrid` with an index-independent function is a nested map. -/
theorem mapGrid_const (s : GameState) (g : Square → Square) :
    mapGrid s (fun sq _ _ => g sq) = s.grid.map (fun row => row.map g) := by
  unfold mapGrid
  rw [show (fun p : Nat × List Square => p.2.enum.map fun q => g q.2) = (fun p => p.2.map g)
    from funext fun p => enumFrom_map_snd p.2 0 g]
  exact enumFrom_map_snd s.grid 0 _

/-- C9: `endTurn` swaps the current player, refills action points to the
maximum, clears the selection, enters the handoff phase, resets the
per-turn flags of exactly the grid units owned by the incoming player
(every other unit is returned unchanged), leaves both reserves untouched,
increments the turn number exactly when the incoming player is player 1 —
and two consecutive `endTurn`s increment the turn number by exactly 1. -/
theorem endTurn_semantics (s : GameState) :
    (endTurn s).currentPlayer = s.currentPlayer.next ∧
    (endTurn s).actionPoints = s.maxActionPoints ∧
    (endTurn s).selectedSquare = none ∧
    (endTurn s).phase = GamePhase.handoff ∧
    (endTurn s).turnNumber =
      (if s.currentPlayer.next = Player.one then s.turnNumber + 1 else s.turnNumber) ∧
    (endTurn s).grid = s.grid.map (fun row => row.map fun sq =>
      { sq with units := sq.units.map fun u =>
          if u.owner = s.currentPlayer.next then
            { u with hasMoved := false, hasAttacked := false, movedSquares := 0 }
          else u }) ∧
    (endTurn s).p1Reserve = s.p1Reserve ∧
    (endTurn s).p2Reserve = s.p2Reserve ∧
    (endTurn (endTurn s)).turnNumber = s.turnNumber + 1 := by
  refine ⟨rfl, rfl, rfl, rfl, rfl, ?_, rfl, rfl, ?_⟩
  · exact mapGrid_const s (fun sq =>
      { sq with units := sq.units.map fun u =>
          if u.owner = s.currentPlayer.next then
            { u with hasMoved := false, hasAttacked := false, movedSquares := 0 }
          else u })
  · have h1 : (endTurn (endTurn s)).turnNumber =
        if (endTurn s).currentPlayer.next = Player.one then (endTurn s).turnNumber + 1
        else (endTurn s).turnNumber := rfl
    have h2 : (endTurn s).currentPlayer = s.currentPlayer.next := rfl
    have h3 : (endTurn s).turnNumber =
        if s.currentPlayer.next = Player.one then s.turnNumber + 1 else s.turnNumber := rfl
    rw [h1, h2, h3]
    cases s.currentPlayer <;> simp [Player.next]

/-- C10: the only fields of the state that `attackSquare` can change are
the grid and the action points — both reserves, the current player, the
action-point maximum, the selection, the phase, the turn number, the winner
and the combat log are returned unchanged on every path. -/
theorem attackSquare_frame (s : GameState) (fs : List Position) (t : Position)
    (uids : Option (List String)) (rng : Nat → Nat) :
    (attackSquare s fs t uids rng).1.p1Reserve = s.p1Reserve ∧
    (attackSquare s fs t uids rng).1.p2Reserve = s.p2Reserve ∧
    (attackSquare s fs t uids rng).1.currentPlayer = s.currentPlayer ∧
    (attackSquare s fs t uids rng).1.maxActionPoints = s.maxActionPoints ∧
    (attackSquare s fs t uids rng).1.selectedSquare = s.selectedSquare ∧
    (attackSquare s fs t uids rng).1.phase = s.phase ∧
    (attackSquare s fs t uids rng).1.turnNumber = s.turnNumber ∧
    (attackSquare s fs t uids rng).1.winner = s.winner ∧
    (attackSquare s fs t uids rng).1.combatLog = s.combatLog := by
  unfold attackSquare
  by_cases hap : s.actionPoints ≤ 0
  · rw [if_pos hap]
    exact ⟨by trivial, by trivial, by trivial, by trivial, by trivial, by trivial, by trivial, by trivial, by trivial⟩
  rw [if_neg hap]
  cases hts : getSquare s t with
  | none =>
    simp only [hts]
    exact ⟨by trivial, by trivial, by trivial, by trivial, by trivial, by trivial, by trivial, by trivial, by trivial⟩
  | some tsq =>
    simp only [hts]
    by_cases hdef : (List.filter (fun u => decide (u.owner ≠ s.currentPlayer)) tsq.units).isEmpty = true
    · rw [if_pos hdef]
      exact ⟨by trivial, by trivial, by trivial, by trivial, by trivial, by trivial, by trivial, by trivial, by trivial⟩
    · rw [if_neg hdef]
      exact ⟨by trivial, by trivial, by trivial, by trivial, by trivial, by trivial, by trivial, by trivial, by trivial⟩

/-- An entry of an enumeration is the element of the list at its index. -/
theorem enumFrom_get? {α : Type} {l : List α} {n : Nat} {p : Nat × α}
    (h : p ∈ l.enumFrom n) : n ≤ p.1 ∧ l.get? (p.1 - n) = some p.2 := by
  induction l generalizing n with
  | nil => cases h
  | cons a t ih =>
    rw [List.enumFrom] at h
    rcases List.mem_cons.1 h with h | h
    · subst h
      exact ⟨le_refl _, by simp⟩
    · obtain ⟨h1, h2⟩ := ih h
      refine ⟨by omega, ?_⟩
      have hd : p.1 - n = (p.1 - (n + 1)) + 1 := by omega
      rw [hd]
      simpa using h2

/-- Every list element appears in the enumeration. -/
theorem mem_enumFrom_of_mem {α : Type} {l : List α} {a : α} (h : a ∈ l) (n : Nat) :
    ∃ i, (i, a) ∈ l.enumFrom n := by
  induction l generalizing n with
  | nil => cases h
  | cons b t ih =>
    rcases List.mem_cons.1 h with h | h
    · subst h
      exact ⟨n, by rw [List.enumFrom]; exact List.mem_cons_self _ _⟩
    · obtain ⟨i, hi⟩ := ih h (n + 1)
      exact ⟨i, by rw [List.enumFrom]; exact List.mem_cons_of_mem _ hi⟩

/-- An index of `aliveIdx` points at a record with positive hit points. -/
theorem aliveIdx_get {recs : List DmgRec} {j : Nat} (h : j ∈ aliveIdx recs) :
    ∃ r, recs.get? j = some r ∧ 0 < r.remainingHp := by
  unfold aliveIdx at h
  obtain ⟨q, hq, hj⟩ := List.mem_map.1 h
  obtain ⟨hqe, hpos⟩ := List.mem_filter.1 hq
  have hg := (enumFrom_get? hqe).2
  subst hj
  exact ⟨q.2, by simpa using hg, by simpa using hpos⟩

/-- Embeds `aliveIdx` is empty exactly when no record has positive hit points. -/
theorem aliveIdx_eq_nil {recs : List DmgRec} (h : aliveIdx recs = []) :
    ∀ r ∈ recs, r.remainingHp ≤ 0 := by
  intro r hr
  unfold aliveIdx at h
  rw [List.map_eq_nil_iff] at h
  obtain ⟨i, hi⟩ := mem_enumFrom_of_mem hr 0
  have := List.filter_eq_nil_iff.1 h (i, r) hi
  simpa using this

/-- Membership in `decrementAt`: every record is an original one, except
the record at the hit index, which took one point. -/
theorem mem_decrementAt {recs : List DmgRec} {j : Nat} {x : DmgRec}
    (h : x ∈ decrementAt recs j) :
    x ∈ recs ∨ ∃ r, recs.get? j = some r ∧ r ∈ recs ∧
      x = { r with remainingHp := r.remainingHp - 1, totalDmg := r.totalDmg + 1 } := by
  induction recs generalizing j with
  | nil => cases h
  | cons a t ih =>
    cases j with
    | zero =>
      rw [decrementAt] at h
      rcases List.mem_cons.1 h with h | h
      · exact Or.inr ⟨a, rfl, List.mem_cons_self _ _, h⟩
      · exact Or.inl (List.mem_cons_of_mem _ h)
    | succ k =>
      rw [decrementAt] at h
      rcases List.mem_cons.1 h with h | h
      · exact Or.inl (h ▸ List.mem_cons_self _ _)
      · rcases ih h with h | ⟨r, hg, hm, hx⟩
        · exact Or.inl (List.mem_cons_of_mem _ h)
        · exact Or.inr ⟨r, by simpa using hg, List.mem_cons_of_mem _ hm, hx⟩

/-- Hitting a present record adds one point of tracked damage in total. -/
theorem sumDmg_decrementAt {recs : List DmgRec} {j : Nat} {r : DmgRec}
    (h : recs.get? j = some r) : sumDmg (decrementAt recs j) = sumDmg recs + 1 := by
  induction recs generalizing j with
  | nil => simp at h
  | cons a t ih =>
    cases j with
    | zero =>
      simp only [decrementAt, sumDmg, List.map_cons, List.sum_cons]
      omega
    | succ k =>
      have := ih (by simpa using h)
      simp only [decrementAt, sumDmg, List.map_cons, List.sum_cons] at *
      omega

/-- Hitting an alive record removes one total hit point. -/
theorem sumHp_decrementAt {recs : List DmgRec} {j : Nat} {r : DmgRec}
    (h : recs.get? j = some r) (hr : 0 < r.remainingHp) :
    sumHpNat (decrementAt recs j) + 1 = sumHpNat recs := by
  induction recs generalizing j with
  | nil => simp at h
  | cons a t ih =>
    cases j with
    | zero =>
      have ha : a = r := by simpa using h
      subst ha
      simp only [decrementAt, sumHpNat, List.map_cons, List.sum_cons]
      omega
    | succ k =>
      have := ih (by simpa using h)
      simp only [decrementAt, sumHpNat, List.map_cons, List.sum_cons] at *
      omega

/-- Embeds `decrementAt` at an alive index keeps all hit points non-negative. -/
theorem decrementAt_nonneg {recs : List DmgRec} {j : Nat} {r : DmgRec}
    (hn : ∀ x ∈ recs, 0 ≤ x.remainingHp) (h : recs.get? j = some r)
    (hr : 0 < r.remainingHp) : ∀ x ∈ decrementAt recs j, 0 ≤ x.remainingHp := by
  intro x hx
  rcases mem_decrementAt hx with hx | ⟨r2, hg2, hm2, hx2⟩
  · exact hn x hx
  · have : r2 = r := by rw [hg2] at h; exact Option.some.inj h
    subst this
    subst hx2
    simp only
    omega

/-- One hit of the distribution loop either discards the hit (no record
alive) or moves exactly one point: total damage up one, total hit points
down one. -/
theorem runHits_sumDmg (rng : Nat → Nat) (n : Nat) :
    ∀ (start : Nat) (recs : List DmgRec), (∀ x ∈ recs, 0 ≤ x.remainingHp) →
    sumDmg (runHits rng start recs n) = sumDmg recs + min n (sumHpNat recs) := by
  induction n with
  | zero => intro start recs _; simp [runHits]
  | succ m ih =>
    intro start recs hn
    rw [runHits]
    cases haidx : aliveIdx recs with
    | nil =>
      have hzero : sumHpNat recs = 0 := by
        refine List.sum_eq_zero fun x hx => ?_
        obtain ⟨r, hr, hxr⟩ := List.mem_map.1 hx
        have h1 := aliveIdx_eq_nil haidx r hr
        have h2 := hn r hr
        omega
      have hid : hitOnce recs (rng start) = recs := by
        unfold hitOnce
        rw [haidx]
      rw [hid, ih (start + 1) recs hn, hzero]
      omega
    | cons a as =>
      have hj : (a :: as).get ⟨rng start % (a :: as).length,
          Nat.mod_lt _ (Nat.succ_pos as.length)⟩ ∈ aliveIdx recs := by
        rw [haidx]
        exact List.get_mem _ _ _
      obtain ⟨r, hget, hr⟩ := aliveIdx_get hj
      have hone : hitOnce recs (rng start) = decrementAt recs
          ((a :: as).get ⟨rng start % (a :: as).length,
            Nat.mod_lt _ (Nat.succ_pos as.length)⟩) := by
        unfold hitOnce
        rw [haidx]
      rw [hone, ih (start + 1) _ (decrementAt_nonneg hn hget hr),
        sumDmg_decrementAt hget]
      have hhp := sumHp_decrementAt hget hr
      omega

/-- The invariant survives one decrement at an alive index. -/
theorem forall2_decrementAt {recs : List DmgRec} {defs : List Unit} {j : Nat} {r : DmgRec}
    (h : List.Forall₂ DmgInv recs defs) (hget : recs.get? j = some r)
    (hr : 0 < r.remainingHp) : List.Forall₂ DmgInv (decrementAt recs j) defs := by
  induction h generalizing j with
  | nil => simp at hget
  | @cons r0 d0 recs0 defs0 hinv htail ih =>
    cases j with
    | zero =>
      have heq : r0 = r := by simpa using hget
      rw [← heq] at hr
      rw [decrementAt]
      obtain ⟨h1, h2, h3⟩ := hinv
      refine List.Forall₂.cons ⟨h1, ?_, ?_⟩ htail
      · show r0.remainingHp - 1 + ((r0.totalDmg + 1 : Nat) : Int) = d0.level
        omega
      · show (0 : Int) ≤ r0.remainingHp - 1
        omega
    | succ k =>
      rw [decrementAt]
      exact List.Forall₂.cons hinv (ih (by simpa using hget))

/-- The invariant survives one random hit. -/
theorem forall2_hitOnce {recs : List DmgRec} {defs : List Unit}
    (h : List.Forall₂ DmgInv recs defs) (x : Nat) :
    List.Forall₂ DmgInv (hitOnce recs x) defs := by
  cases haidx : aliveIdx recs with
  | nil =>
    have hid : hitOnce recs x = recs := by
      unfold hitOnce
      rw [haidx]
    rw [hid]
    exact h
  | cons a as =>
    have hj : (a :: as).get ⟨x % (a :: as).length,
        Nat.mod_lt _ (Nat.succ_pos as.length)⟩ ∈ aliveIdx recs := by
      rw [haidx]
      exact List.get_mem _ _ _
    obtain ⟨r, hget, hr⟩ := aliveIdx_get hj
    have hone : hitOnce recs x = decrementAt recs
        ((a :: as).get ⟨x % (a :: as).length, Nat.mod_lt _ (Nat.succ_pos as.length)⟩) := by
      unfold hitOnce
      rw [haidx]
    rw [hone]
    exact forall2_decrementAt h hget hr

/-- The invariant survives the whole hit loop. -/
theorem forall2_runHits {defs : List Unit} (rng : Nat → Nat) (n : Nat) :
    ∀ (start : Nat) (recs : List DmgRec), List.Forall₂ DmgInv recs defs →
    List.Forall₂ DmgInv (runHits rng start recs n) defs := by
  induction n with
  | zero => intro start recs h; exact h
  | succ m ih => intro start recs h; exact ih (start + 1) _ (forall2_hitOnce h (rng start))

/-- Left-membership extraction for `Forall₂`. -/
theorem forall2_mem_left {α β : Type} {R : α → β → Prop} {l₁ : List α} {l₂ : List β}
    (h : List.Forall₂ R l₁ l₂) {a : α} (ha : a ∈ l₁) : ∃ b ∈ l₂, R a b := by
  induction h with
  | nil => cases ha
  | cons hr htail ih =>
    rcases List.mem_cons.1 ha with ha | ha
    · subst ha
      exact ⟨_, List.mem_cons_self _ _, hr⟩
    · obtain ⟨b, hb, hrb⟩ := ih ha
      exact ⟨b, List.mem_cons_of_mem _ hb, hrb⟩

/-- Dropping the zero-damage records does not change the damage total. -/
theorem sumDamage_filter (recs : List DmgRec) :
    sumDamage ((recs.filter fun d => decide (0 < d.totalDmg)).map fun d =>
      DmgEntry.mk d.id d.totalDmg (decide (d.remainingHp ≤ 0))) = sumDmg recs := by
  induction recs with
  | nil => rfl
  | cons a t ih =>
    by_cases ha : 0 < a.totalDmg
    · rw [List.filter_cons, if_pos (by simpa using ha)]
      simp only [List.map_cons, sumDamage, sumDmg, List.sum_cons] at *
      omega
    · rw [List.filter_cons, if_neg (by simpa using ha)]
      have h0 : a.totalDmg = 0 := by omega
      simp only [sumDamage, sumDmg, List.map_cons, List.sum_cons] at *
      omega

/-- The freshly created records satisfy the invariant. -/
theorem forall2_init (defs : List Unit) (hlev : ∀ d ∈ defs, 1 ≤ d.level) :
    List.Forall₂ DmgInv (defs.map fun d => DmgRec.mk d.id d.level 0) defs := by
  induction defs with
  | nil => exact List.Forall₂.nil
  | cons d t ih =>
    refine List.Forall₂.cons ⟨rfl, by simp, ?_⟩ (ih fun x hx => hlev x (List.mem_cons_of_mem _ hx))
    have := hlev d (List.mem_cons_self _ _)
    simp only
    omega

/-- C7: `distributeDamage` conserves hits up to overflow and reports only
real damage.  For every hit count, every defender list with levels ≥ 1 and
every stream of random choices: the reported damages sum to
`min totalHits (sum of the defender levels)` — hits beyond the combined
hit points are discarded — and every entry names a defender, has damage
between 1 and that defender's level, and is flagged destroyed exactly when
the damage equals the level. -/
theorem distributeDamage_spec (totalHits : Nat) (atk defenders : List Unit)
    (rng : Nat → Nat) (start : Nat) (hlev : ∀ d ∈ defenders, 1 ≤ d.level) :
    sumDamage (distributeDamage totalHits atk defenders rng start) =
      min totalHits ((defenders.map fun d => d.level.toNat).sum) ∧
    ∀ e ∈ distributeDamage totalHits atk defenders rng start,
      1 ≤ e.damage ∧ ∃ d ∈ defenders, e.unitId = d.id ∧ (e.damage : Int) ≤ d.level ∧
        (e.destroyed = true ↔ (e.damage : Int) = d.level) := by
  have hinit := forall2_init defenders hlev
  have hnn : ∀ x ∈ defenders.map fun d => DmgRec.mk d.id d.level 0, 0 ≤ x.remainingHp := by
    intro x hx
    obtain ⟨b, hb, hinv⟩ := forall2_mem_left hinit hx
    exact hinv.2.2
  have hfinal := forall2_runHits rng totalHits start _ hinit
  constructor
  · show sumDamage ((List.filter _ (runHits rng start _ totalHits)).map _) = _
    rw [sumDamage_filter, runHits_sumDmg rng totalHits start _ hnn]
    have h0 : sumDmg (defenders.map fun d => DmgRec.mk d.id d.level 0) = 0 := by
      unfold sumDmg
      rw [List.map_map]
      exact List.sum_eq_zero fun x hx => by
        obtain ⟨d, hd, hxd⟩ := List.mem_map.1 hx
        subst hxd
        rfl
    have h1 : sumHpNat (defenders.map fun d => DmgRec.mk d.id d.level 0) =
        (defenders.map fun d => d.level.toNat).sum := by
      unfold sumHpNat
      rw [List.map_map]
      rfl
    rw [h0, h1]
    omega
  · intro e he
    obtain ⟨rec, hrecf, herec⟩ := List.mem_map.1 he
    obtain ⟨hrec, hpos⟩ := List.mem_filter.1 hrecf
    obtain ⟨d, hd, hinv⟩ := forall2_mem_left hfinal hrec
    obtain ⟨hid, hsum, hhp⟩ := hinv
    subst herec
    have hdmg : 0 < rec.totalDmg := by simpa using hpos
    refine ⟨hdmg, d, hd, hid, ?_, ?_, ?_⟩
    · show ((rec.totalDmg : Nat) : Int) ≤ d.level
      omega
    · intro hdes
      have hh : rec.remainingHp ≤ 0 := by simpa using hdes
      show ((rec.totalDmg : Nat) : Int) = d.level
      omega
    · intro heq
      have hh : ((rec.totalDmg : Nat) : Int) = d.level := heq
      show decide (rec.remainingHp ≤ 0) = true
      simp only [decide_eq_true_eq]
      omega

/-- Witness for C7 at a concrete input: 5 hits on two level-2 defenders
(4 combined hit points) deal exactly 4 points in total. -/
theorem distributeDamage_spec_witness :
    sumDamage (distributeDamage 5 [] [enemyInf, enemyArt] (fun i => i * 7 + 3) 0) = 4 :=
  (distributeDamage_spec 5 [] [enemyInf, enemyArt] (fun i => i * 7 + 3) 0 (by decide)).1.trans
    (by decide)

/-- There are only three archetypes, so a deduplicated list of unit types
has at most 3 elements. -/
theorem dedup_unitType_le (l : List UnitType) : l.dedup.length ≤ 3 := by
  have h := List.Nodup.length_le_card (List.nodup_dedup l)
  have hc : Fintype.card UnitType = 3 := rfl
  omega

/-- Folding addition of a mapped value equals the sum of the map. -/
theorem foldl_add_map {α : Type} (f : α → Int) (l : List α) :
    ∀ init : Int, l.foldl (fun s b => s + f b) init = init + (l.map f).sum := by
  induction l with
  | nil => simp
  | cons b t ih =>
    intro init
    simp only [List.foldl_cons, List.map_cons, List.sum_cons, ih]
    ring

/-- Embeds `calculateThreshold` in closed form: base 10 plus the bonus values,
clamped to [2, 36]. -/
theorem calculateThreshold_formula (bs : List BonusType) :
    calculateThreshold bs = max 2 (min 36 (10 + (bs.map BONUS_VALUES).sum)) := by
  unfold calculateThreshold BASE_THRESHOLD MIN_THRESHOLD MAX_THRESHOLD
  rw [foldl_add_map]
  simp

set_option maxHeartbeats 2000000 in
/-- Embeds `calculateBonuses` in closed form: the combined-arms choice, then the
flanking choice, then the cavalry-charge flag. -/
theorem calculateBonuses_eq (m : List (Position × List Unit)) :
    calculateBonuses m =
      (if 3 ≤ ((((m.map Prod.snd).flatten).map Unit.type).dedup).length then
        [BonusType.combinedArms3]
       else if ((((m.map Prod.snd).flatten).map Unit.type).dedup).length = 2 then
        [BonusType.combinedArms2]
       else []) ++
      ((if 3 ≤ ((m.map fun kv => kv.1.col).dedup).length then [BonusType.flanking3]
        else if 2 ≤ ((m.map fun kv => kv.1.col).dedup).length then [BonusType.flanking2]
        else []) ++
       (if ((m.map Prod.snd).flatten.any fun u =>
            decide (u.type = UnitType.cavalry) && u.hasMoved && decide (u.movedSquares = 1)) = true
        then [BonusType.cavalryCharge]
        else [])) := by
  unfold calculateBonuses
  by_cases h1 : 3 ≤ ((((m.map Prod.snd).flatten).map Unit.type).dedup).length <;>
    by_cases h2 : ((((m.map Prod.snd).flatten).map Unit.type).dedup).length = 2 <;>
    by_cases f1 : 3 ≤ ((m.map fun kv => kv.1.col).dedup).length <;>
    by_cases f2 : 2 ≤ ((m.map fun kv => kv.1.col).dedup).length <;>
    by_cases hch : ((m.map Prod.snd).flatten.any fun u =>
      decide (u.type = UnitType.cavalry) && u.hasMoved && decide (u.movedSquares = 1)) = true <;>
    simp [h1, h2, f1, f2, hch, ge_iff_le]

set_option maxHeartbeats 4000000 in
/-- C8: `calculateBonuses` grants exactly the bonuses whose condition
holds — combined-arms-2 iff the attackers span exactly 2 distinct
archetypes, combined-arms-3 iff all 3, flanking-2 iff the origin squares
span exactly 2 distinct columns, flanking-3 iff 3 (assuming at most 3
distinct columns, as for grid positions), cavalry-charge iff some
attacking cavalry has `hasMoved` with `movedSquares = 1` — and
`calculateThreshold` of the resulting list is
`max 2 (min 36 (10 + sum of the bonus values))` where the values are
6, 10, 10, 20, 6. -/
theorem calculateBonuses_spec (m : List (Position × List Unit))
    (hcols : ((m.map fun kv => kv.1.col).dedup).length ≤ 3) :
    (BonusType.combinedArms2 ∈ calculateBonuses m ↔
      ((((m.map Prod.snd).flatten).map Unit.type).dedup).length = 2) ∧
    (BonusType.combinedArms3 ∈ calculateBonuses m ↔
      ((((m.map Prod.snd).flatten).map Unit.type).dedup).length = 3) ∧
    (BonusType.flanking2 ∈ calculateBonuses m ↔
      ((m.map fun kv => kv.1.col).dedup).length = 2) ∧
    (BonusType.flanking3 ∈ calculateBonuses m ↔
      ((m.map fun kv => kv.1.col).dedup).length = 3) ∧
    (BonusType.cavalryCharge ∈ calculateBonuses m ↔
      ∃ u ∈ (m.map Prod.snd).flatten, u.type = UnitType.cavalry ∧ u.hasMoved = true ∧
        u.movedSquares = 1) ∧
    calculateThreshold (calculateBonuses m) =
      max 2 (min 36 (10 + ((calculateBonuses m).map BONUS_VALUES).sum)) := by
  have htc := dedup_unitType_le (((m.map Prod.snd).flatten).map Unit.type)
  have hch1 : BonusType.cavalryCharge ∈ calculateBonuses m ↔
      ((m.map Prod.snd).flatten.any fun u =>
        decide (u.type = UnitType.cavalry) && u.hasMoved && decide (u.movedSquares = 1)) = true := by
    rw [calculateBonuses_eq]
    split_ifs <;> simp_all <;> assumption
  refine ⟨?_, ?_, ?_, ?_, ?_, calculateThreshold_formula _⟩
  · rw [calculateBonuses_eq]
    split_ifs <;> (try simp_all) <;> omega
  · rw [calculateBonuses_eq]
    split_ifs <;> (try simp_all) <;> omega
  · rw [calculateBonuses_eq]
    split_ifs <;> (try simp_all) <;> omega
  · rw [calculateBonuses_eq]
    split_ifs <;> (try simp_all) <;> omega
  · rw [hch1, List.any_eq_true]
    simp only [Bool.and_eq_true, decide_eq_true_eq]
    tauto

/-- Witness for C8 at a concrete input: an infantry from column 0 and a
one-square-charging cavalry from column 1 give combined-arms-2, flanking-2
and cavalry-charge, and the threshold is 10 + 6 + 10 + 6 = 32. -/
theorem calculateBonuses_spec_witness :
    BonusType.flanking2 ∈ calculateBonuses c8Map ∧
    calculateThreshold (calculateBonuses c8Map) = 32 := by
  have h := calculateBonuses_spec c8Map (by decide)
  exact ⟨h.2.2.1.2 (by decide), h.2.2.2.2.2.trans (by decide)⟩

end ImperialBattleground
